import Mathlib

/-!
Verification development for `blaze/compute/bcolz.py`: the chunked execution
engine over bcolz carrays/ctables.  Python numbers are embedded as exact
rationals (`ℚ`), fallible Python operations as `Except PyErr`, and the
module's generators/loops as fuel-based structural recursion.
-/

/-- The Python exception kinds raised or caught in `bcolz.py`.
`mdNotImplementedError` is multipledispatch's distinct signal meaning
"this strategy does not apply, try another", as opposed to the runtime
failure `notImplementedError`. -/
inductive PyErr
  | zeroDivisionError
  | notImplementedError
  | mdNotImplementedError
  | valueError
  | indexError
  | nameError
  | attributeError
  | typeError
deriving DecidableEq, Repr

/-- Python true division (`from __future__ import division` is in force in
`bcolz.py`): raises `ZeroDivisionError` on a zero denominator, otherwise
returns the exact quotient. -/
def pyDiv (a b : ℚ) : Except PyErr ℚ :=
  if b = 0 then .error .zeroDivisionError else .ok (a / b)

/-- A numpy floating-point scalar: a finite value, or one of the
non-finite results numpy produces silently. -/
inductive NpVal
  | num (q : ℚ)
  | nan
  | inf
  | negInf
deriving DecidableEq, Repr

/-- Division whose left operand is a numpy scalar: numpy does not raise
on a zero denominator — under its default error state it emits a
RuntimeWarning and returns nan (for a zero numerator) or ±inf, and the
caller receives that value silently. -/
def npDiv (a b : ℚ) : NpVal :=
  if b = 0 then (if a = 0 then .nan else if 0 < a then .inf else .negInf)
  else .num (a / b)

instance {ε α : Type} [DecidableEq ε] [DecidableEq α] : DecidableEq (Except ε α) :=
  fun a b =>
    match a, b with
    | .error e, .error f =>
      if h : e = f then .isTrue (by rw [h])
      else .isFalse (fun hc => h (Except.error.inj hc))
    | .ok x, .ok y =>
      if h : x = y then .isTrue (by rw [h])
      else .isFalse (fun hc => h (Except.ok.inj hc))
    | .error _, .ok _ => .isFalse (fun hc => Except.noConfusion hc)
    | .ok _, .error _ => .isFalse (fun hc => Except.noConfusion hc)

/-!
## Partition planner

Embeds the loop of `chunks` (bcolz.py lines 183-189)

    start = 0
    n = b.len
    while start < n:
        yield b[start:start + chunksize]
        start += chunksize

as index ranges.  Each iteration contributes the half-open range
`[start, min (start + c) L)` — the indices Python's slice
`b[start:start+c]` actually selects.  The loop is driven by fuel: since
each iteration advances `start` by `c ≥ 1`, `L` iterations always
suffice, so `chunksPlan` runs the loop with fuel `L`.
-/

/-- One `while start < n` loop of the `chunks` generator, fuel-based. -/
def planAux (c L : ℕ) : ℕ → ℕ → List (ℕ × ℕ)
  | 0, _ => []
  | fuel + 1, start =>
    if start < L then (start, min (start + c) L) :: planAux c L fuel (start + c)
    else []

/-- The partition plan for a source of length `L` with chunk size `c`:
the sequence of half-open index ranges the `chunks` loop slices. -/
def chunksPlan (L c : ℕ) : List (ℕ × ℕ) :=
  planAux c L L 0

/-- The `chunks` generator itself: the materialized slices
`b[start:start+c]` (Python's `b[start:start+c]` is `take c (drop start b)`),
one per planned partition. -/
def chunksData {α : Type} (c : ℕ) (b : List α) : List (List α) :=
  (chunksPlan b.length c).map (fun pr => (b.drop pr.1).take c)

/-!
## Expression language and the split pipeline (compute_down, lines 209-228)

`compute_down` splits a full expression into a chunk-local expression and
an aggregate expression, maps the chunk-local expression over the
materialized partitions, merges the per-chunk results in partition order,
and evaluates the aggregate on the merged intermediate.
-/

/-- Map-like transforms sitting below the reduction at the root of a
split-eligible expression: the leaf symbol, elementwise maps, and
filters/selections. -/
inductive TExpr
  | leaf
  | emap (f : ℤ → ℤ) (child : TExpr)
  | sel (p : ℤ → Bool) (child : TExpr)

/-- The generic evaluator on the transform part: leaf binds the data,
`emap` maps elementwise, `sel` filters. -/
def evalT : TExpr → List ℤ → List ℤ
  | .leaf, xs => xs
  | .emap f t, xs => (evalT t xs).map f
  | .sel p t, xs => (evalT t xs).filter p

/-- The reductions named by the chunk-size-independence property:
sum, count and distinct-count (`nunique`, computed as `len(set(data))`
in `compute_up (nunique, bcolz.carray)`, lines 152-157). -/
inductive RKind
  | rsum
  | rcount
  | rnunique

/-- Direct evaluation of the full expression (transform, then reduction)
over the whole dataset. -/
def evalFull : RKind → TExpr → List ℤ → ℤ
  | .rsum, t, xs => (evalT t xs).sum
  | .rcount, t, xs => ((evalT t xs).length : ℤ)
  | .rnunique, t, xs => ((evalT t xs).toFinset.card : ℤ)

/-- Modelled from the spec: the chunk-local half of
`split(leaf, expr, chunk=chunk)`.  The function `split` lives in
`blaze/expr/split.py`, which is not under `src/`; spec §4.4 and §4.7 give
its contract: push the transform plus a partial reduction into the chunk
expression (per-chunk sum, per-chunk count, per-chunk distinct set). -/
def splitChunkExpr : RKind → TExpr → List ℤ → List ℤ
  | .rsum, t, chunk => [(evalT t chunk).sum]
  | .rcount, t, chunk => [((evalT t chunk).length : ℤ)]
  | .rnunique, t, chunk => (evalT t chunk).dedup

/-- Modelled from the spec: the aggregate half of `split` (spec §4.4,
§4.7): sum of partial sums, sum of chunk counts, distinct-count of the
union of per-chunk distinct sets. -/
def splitAggExpr : RKind → List ℤ → ℤ
  | .rsum, merged => merged.sum
  | .rcount, merged => merged.sum
  | .rnunique, merged => (merged.toFinset.card : ℤ)

/-- The chunked pipeline of `compute_down` (lines 209-228): evaluate the
chunk-local expression on each partition's materialized slice, merge the
per-chunk results in partition order (the `Iterable` branch:
`list(concat(parts))`), and evaluate the aggregate on the merged
intermediate. -/
def executeChunked (r : RKind) (t : TExpr) (c : ℕ) (xs : List ℤ) : ℤ :=
  splitAggExpr r (((chunksData c xs).map (splitChunkExpr r t)).flatten)

/-!
## Reduction library (compute_up on carrays, lines 95-136)
-/

/-- `compute_up (count, ...)` (lines 103-108): `len(data)`. -/
def count_up {α : Type} (data : List α) : ℕ := data.length

/-- `compute_up (sum, ...)` (lines 95-100): `data.sum()`; numpy's sum of
an empty array is `0`. -/
def sum_up (data : List ℚ) : ℚ := data.sum

/-- `compute_up (mean, bcolz.carray)` (lines 111-116):
`ba.sum() / ba.len`.  bcolz's `carray.sum()` returns a NumPy scalar (the
`float(...)` cast at line 123 corroborates this), so this is
numpy-scalar division: a zero `ba.len` silently yields nan rather than
raising `ZeroDivisionError`. -/
def mean_up (ba : List ℚ) : NpVal :=
  npDiv ba.sum (ba.length : ℚ)

/-- The plain sum of squares `Σx²` over the whole dataset. -/
def sqSum (ba : List ℚ) : ℚ := (ba.map (fun x => x * x)).sum

/-- Python's arithmetic coercion of the `unbiased` boolean:
`True` is `1`, `False` is `0`. -/
def uflag (b : Bool) : ℚ := if b then 1 else 0

/-- `compute_up (var, bcolz.carray)` (lines 119-127):

    n = ba.len
    E_X_2 = builtins.sum((chunk * chunk).sum() for chunk in chunks(ba))
    E_X = float(ba.sum())
    result = (E_X_2 - (E_X * E_X) / n) / (n - expr.unbiased)

`chunks(ba)` is called without arguments, so it uses its own default
chunk size `2**15`.  `E_X` is a genuine Python float (the explicit
`float(...)` cast), so the inner division `(E_X * E_X) / n` is Python
true division and raises `ZeroDivisionError` when `n = 0`.  Whenever the
outer division is reached the data is nonempty, and then `E_X_2` is a
NumPy scalar (a `builtins.sum` of `ndarray.sum()` results), so the outer
division is numpy-scalar division: a zero denominator `n - unbiased`
silently yields nan/inf instead of raising. -/
def var_up (unbiased : Bool) (ba : List ℚ) : Except PyErr NpVal :=
  let n : ℚ := (ba.length : ℚ)
  let E_X_2 : ℚ :=
    ((chunksData (2 ^ 15) ba).map (fun chunk => (chunk.map (fun x => x * x)).sum)).sum
  let E_X : ℚ := ba.sum
  match pyDiv (E_X * E_X) n with
  | .error e => .error e
  | .ok t => .ok (npDiv (E_X_2 - t) (n - uflag unbiased))

/-- A real-valued floating-point result of `math.sqrt`. -/
inductive RVal
  | num (r : ℝ)
  | nan
  | inf

/-- Python's `math.sqrt`: raises `ValueError` ("math domain error") on a
negative input (finite or `-inf`), returns the square root of a
nonnegative finite input, and passes nan and `inf` through. -/
noncomputable def mathSqrt : NpVal → Except PyErr RVal
  | .num x => if x < 0 then .error .valueError else .ok (.num (Real.sqrt x))
  | .nan => .ok .nan
  | .inf => .ok .inf
  | .negInf => .error .valueError

/-- `compute_up (std, bcolz.carray)` (lines 130-136): evaluate the
variance of the child with the same `unbiased` flag, then `math.sqrt` of
that result; errors from the variance propagate. -/
noncomputable def std_up (unbiased : Bool) (ba : List ℚ) : Except PyErr RVal :=
  match var_up unbiased ba with
  | .error e => .error e
  | .ok v => mathSqrt v

/-!
## Memory policy and strategy selection
-/

/-- The memory check written at every decision point:
`data.nbytes < available_memory() / 4` under true division. -/
def fits_in_memory (nbytes am : ℕ) : Bool :=
  decide ((nbytes : ℚ) < (am : ℚ) / 4)

/-- The execution path a handler hands the data to. -/
inductive ExecPath
  | inMemory
  | iteratorStream
  | chunkIndexable
deriving DecidableEq, Repr

/-- The generic handler of lines 144-149 (`Arithmetic`, `Broadcast`,
`ElemWise`, `Distinct`, `By`, `nunique`, `Like`) and the effective
`Selection` handler of lines 73-77: if the data fits, recurse on the
in-memory materialization `data[:]`, otherwise on a lazy iterator. -/
def compute_up_generic (fits : Bool) : ExecPath :=
  if fits then .inMemory else .iteratorStream

/-- A trace of one `compute_up (Reduction, ...)` call (lines 160-167). -/
structure ReductionRun where
  performed : List ExecPath
  returned : ExecPath
deriving DecidableEq, Repr

/-- The `Reduction` handler (lines 160-167):

    if data.nbytes < available_memory() / 4:
        result = compute_up(expr, data[:], **kwargs)
    result = compute_up(expr, ChunkIndexable(data), **kwargs)

When the check passes, the in-memory result is computed and then the
unconditional second assignment overwrites it, so the returned result is
always the `ChunkIndexable` (chunked) computation. -/
def compute_up_reduction (fits : Bool) : ReductionRun :=
  { performed := (if fits then [ExecPath.inMemory] else []) ++ [ExecPath.chunkIndexable]
    returned := ExecPath.chunkIndexable }

/-!
## The Head fast path (compute_down, lines 45-58)
-/

/-- Values produced by the generic evaluator: sequences or scalars. -/
inductive CValue
  | cvec (xs : List ℤ)
  | cscal (z : ℤ)
deriving DecidableEq, Repr

/-- Single-leaf expression chains as dispatched on by the Head fast
path: the node kinds of the `Cheap` tuple (line 45: `Head`, `ElemWise`,
`Selection`, `Distinct`, `Symbol`) plus reductions, which are not in it. -/
inductive CExpr
  | csymbol
  | chead (n : ℕ) (child : CExpr)
  | cmap (f : ℤ → ℤ) (child : CExpr)
  | cselection (p : ℤ → Bool) (child : CExpr)
  | cdistinct (child : CExpr)
  | creduce (r : RKind) (child : CExpr)

/-- Modelled from the spec: the generic expression evaluator
(`compute` from `blaze/compute/core.py`, not under `src/`; spec §6:
`evaluate(expression, bindings)`).  Transforms act on sequences;
applying a sequence operation to a scalar is a type error. -/
def evalC : CExpr → List ℤ → Except PyErr CValue
  | .csymbol, xs => .ok (.cvec xs)
  | .chead n e, xs =>
    match evalC e xs with
    | .ok (.cvec v) => .ok (.cvec (v.take n))
    | .ok (.cscal _) => .error .typeError
    | .error er => .error er
  | .cmap f e, xs =>
    match evalC e xs with
    | .ok (.cvec v) => .ok (.cvec (v.map f))
    | .ok (.cscal _) => .error .typeError
    | .error er => .error er
  | .cselection p e, xs =>
    match evalC e xs with
    | .ok (.cvec v) => .ok (.cvec (v.filter p))
    | .ok (.cscal _) => .error .typeError
    | .error er => .error er
  | .cdistinct e, xs =>
    match evalC e xs with
    | .ok (.cvec v) => .ok (.cvec v.dedup)
    | .ok (.cscal _) => .error .typeError
    | .error er => .error er
  | .creduce r e, xs =>
    match evalC e xs with
    | .ok (.cvec v) =>
      match r with
      | .rsum => .ok (.cscal v.sum)
      | .rcount => .ok (.cscal (v.length : ℤ))
      | .rnunique => .ok (.cscal (v.toFinset.card : ℤ))
    | .ok (.cscal _) => .error .typeError
    | .error er => .error er

/-- `path(expr, leaf)`: the nodes from the expression's root down to its
single leaf, inclusive. -/
def pathNodes : CExpr → List CExpr
  | .csymbol => [.csymbol]
  | .chead n e => .chead n e :: pathNodes e
  | .cmap f e => .cmap f e :: pathNodes e
  | .cselection p e => .cselection p e :: pathNodes e
  | .cdistinct e => .cdistinct e :: pathNodes e
  | .creduce r e => .creduce r e :: pathNodes e

/-- `isinstance(e, Cheap)` for the tuple
`Cheap = (Head, ElemWise, Selection, Distinct, Symbol)` (line 45). -/
def isCheapC : CExpr → Bool
  | .csymbol => true
  | .chead _ _ => true
  | .cmap _ _ => true
  | .cselection _ _ => true
  | .cdistinct _ => true
  | .creduce _ _ => false

/-- `compute_down (Head, ...)` (lines 47-58): if every node on the path
from the root to the leaf is cheap, bind the leaf to a sequential
iterator over the data and hand the whole expression to the generic
evaluator; otherwise raise `MDNotImplementedError` so dispatch can try
another strategy. -/
def compute_down_head (n : ℕ) (e : CExpr) (xs : List ℤ) : Except PyErr CValue :=
  if (pathNodes (.chead n e)).all isCheapC then evalC (.chead n e) xs
  else .error .mdNotImplementedError

/-!
## Result merger (compute_down, lines 216-228)
-/

/-- The shapes the merge step dispatches on: numpy arrays, pandas
DataFrames (rows of fields), and general Python sequences. -/
inductive PValue
  | ndarray (xs : List ℚ)
  | dframe (rows : List (List ℚ))
  | pylist (xs : List ℚ)
deriving DecidableEq, Repr

/-- Extraction performed by `np.concatenate`: every part must be an
array. -/
def getNdarray : PValue → Except PyErr (List ℚ)
  | .ndarray xs => .ok xs
  | _ => .error .typeError

/-- Extraction performed by `pd.concat`: every part must be a frame. -/
def getDframe : PValue → Except PyErr (List (List ℚ))
  | .dframe rows => .ok rows
  | _ => .error .typeError

/-- Iteration performed by `list(concat(parts))`: each part is iterated
in turn (arrays and lists yield their elements). -/
def toIter : PValue → Except PyErr (List ℚ)
  | .ndarray xs => .ok xs
  | .pylist xs => .ok xs
  | .dframe _ => .error .typeError

/-- Fallible elementwise extraction over the list of parts; the first
failure aborts the whole merge. -/
def mapExcept {α : Type} (f : PValue → Except PyErr α) :
    List PValue → Except PyErr (List α)
  | [] => .ok []
  | p :: ps =>
    match f p, mapExcept f ps with
    | .ok x, .ok xs => .ok (x :: xs)
    | .error e, _ => .error e
    | .ok _, .error e => .error e

/-- The merge step (lines 221-226): dispatch on the shape of `parts[0]`
(`IndexError` when the partition set is empty), then concatenate all
parts with the strategy that shape selects. -/
def merge (parts : List PValue) : Except PyErr PValue :=
  match parts with
  | [] => .error .indexError
  | p :: _ =>
    match p with
    | .ndarray _ =>
      match mapExcept getNdarray parts with
      | .error e => .error e
      | .ok xss => .ok (.ndarray xss.flatten)
    | .dframe _ =>
      match mapExcept getDframe parts with
      | .error e => .error e
      | .ok rss => .ok (.dframe rss.flatten)
    | .pylist _ =>
      match mapExcept toIter parts with
      | .error e => .error e
      | .ok xss => .ok (.pylist xss.flatten)

/-!
## Selection handlers (lines 61-77)

`compute_up` is registered twice for the signature
`(Selection, bcolz.ctable)`.  multipledispatch keys its table on the
signature, so the second registration replaces the first: the effective
handler is the later one (lines 73-77), and the earlier handler with the
`data.where`/`try/except` fast path (lines 61-70) is shadowed.
-/

/-- A selection predicate: its pointwise meaning together with whether
numexpr can compile its expression string to a vectorized mask. -/
structure PredC where
  fn : ℚ → Bool
  numexprSupported : Bool

/-- `data.where(s)` after `s = eval_str(expr.predicate._expr)`: a
vectorized filter when numexpr supports the predicate, otherwise one of
the failures the source comments on ("numexpr may not be able to handle
the predicate"). -/
def eval_where (p : PredC) (rows : List ℚ) : Except PyErr (List ℚ) :=
  if p.numexprSupported then .ok (rows.filter p.fn)
  else .error .notImplementedError

/-- Element-by-element streaming evaluation over `into(Iterator, data)`. -/
def iterFilter (p : PredC) (rows : List ℚ) : List ℚ :=
  rows.filter p.fn

/-- The first-registered `Selection` handler (lines 61-70): in-memory
recursion when the data fits, otherwise try the vectorized
`data.where(s)` and catch `(NotImplementedError, NameError,
AttributeError)` by falling back to the streaming evaluation. -/
def selection_v1 (p : PredC) (rows : List ℚ) (fits : Bool) : Except PyErr (List ℚ) :=
  if fits then .ok (rows.filter p.fn)
  else
    match eval_where p rows with
    | .ok r => .ok r
    | .error .notImplementedError => .ok (iterFilter p rows)
    | .error .nameError => .ok (iterFilter p rows)
    | .error .attributeError => .ok (iterFilter p rows)
    | .error e => .error e

/-- The second-registered `Selection` handler (lines 73-77): in-memory
recursion when the data fits, otherwise the streaming evaluation
directly, with no vectorized attempt. -/
def selection_v2 (p : PredC) (rows : List ℚ) (fits : Bool) : Except PyErr (List ℚ) :=
  if fits then .ok (rows.filter p.fn)
  else .ok (iterFilter p rows)

/-- The registration order of the two `(Selection, bcolz.ctable)`
handlers in the module. -/
def selectionHandlers : List (PredC → List ℚ → Bool → Except PyErr (List ℚ)) :=
  [selection_v1, selection_v2]

/-- multipledispatch resolution: the dict entry for a signature is the
last function registered for it. -/
def effectiveSelection : PredC → List ℚ → Bool → Except PyErr (List ℚ) :=
  selectionHandlers.getLast (by simp [selectionHandlers])

/-!
## ReLabel / Label (lines 139-141)
-/

/-- A bcolz data object: a one-dimensional carray or a ctable of rows. -/
inductive BColz
  | carray (xs : List ℚ)
  | ctable (rows : List (List ℚ))
deriving DecidableEq, Repr

/-- The two relabelling expression kinds dispatched together. -/
inductive RelabelOp
  | relabelOp
  | labelOp
deriving DecidableEq, Repr

/-- `compute_up ((ReLabel, Label), (bcolz.carray, bcolz.ctable))`
(lines 139-141): unconditionally `raise NotImplementedError()`. -/
def compute_up_relabel (e : RelabelOp) (b : BColz) : Except PyErr BColz :=
  .error .notImplementedError

/-! ### Planner lemmas -/

theorem range'_split (s a b : ℕ) :
    List.range' s (a + b) = List.range' s a ++ List.range' (s + a) b := by
  induction a generalizing s with
  | zero => simp
  | succ a ih =>
    rw [Nat.succ_add, List.range'_succ, List.range'_succ, ih (s + 1)]
    have h : s + 1 + a = s + (a + 1) := by omega
    rw [h, List.cons_append]

theorem planAux_join (c L : ℕ) (hc : 0 < c) :
    ∀ fuel start, L - start ≤ fuel →
      ((planAux c L fuel start).map
        (fun pr => List.range' pr.1 (pr.2 - pr.1))).flatten =
      List.range' start (L - start) := by
  intro fuel
  induction fuel with
  | zero =>
    intro start h
    have : L - start = 0 := Nat.le_zero.mp h
    simp [planAux, this]
  | succ fuel ih =>
    intro start h
    by_cases hs : start < L
    · have hrec : L - (start + c) ≤ fuel := by omega
      rw [planAux]
      simp only [if_pos hs, List.map_cons, List.flatten_cons, ih (start + c) hrec]
      by_cases hcl : start + c ≤ L
      · have hmin : min (start + c) L - start = c := by omega
        rw [hmin]
        have hsplit : L - start = c + (L - (start + c)) := by omega
        rw [hsplit, range'_split]
      · have hmin : min (start + c) L - start = L - start := by omega
        have h0 : L - (start + c) = 0 := by omega
        rw [hmin, h0]
        simp
    · rw [planAux]
      simp only [if_neg hs]
      have : L - start = 0 := by omega
      simp [this]

theorem planAux_length (c L : ℕ) (hc : 0 < c) :
    ∀ fuel start, L - start ≤ fuel →
      (planAux c L fuel start).length = (L - start + c - 1) / c := by
  intro fuel
  induction fuel with
  | zero =>
    intro start h
    have h0 : L - start = 0 := Nat.le_zero.mp h
    rw [planAux]
    simp only [List.length_nil, h0]
    rw [Nat.zero_add]
    exact (Nat.div_eq_of_lt (by omega)).symm
  | succ fuel ih =>
    intro start h
    by_cases hs : start < L
    · have hrec : L - (start + c) ≤ fuel := by omega
      rw [planAux]
      simp only [if_pos hs, List.length_cons, ih (start + c) hrec]
      by_cases hend : L ≤ start + c
      · have h1 : L - (start + c) = 0 := by omega
        rw [h1]
        have hlhs : (0 + c - 1) / c = 0 := Nat.div_eq_of_lt (by omega)
        rw [hlhs]
        have hm : 1 ≤ L - start := by omega
        have hm2 : L - start ≤ c := by omega
        have : L - start + c - 1 = (L - start - 1) + c := by omega
        rw [this, Nat.add_div_right _ hc]
        have : (L - start - 1) / c = 0 := Nat.div_eq_of_lt (by omega)
        omega
      · have h1 : L - (start + c) = L - start - c := by omega
        rw [h1]
        have h2 : L - start - c + c - 1 = L - start - 1 := by omega
        rw [h2]
        have h3 : L - start + c - 1 = (L - start - 1) + c := by omega
        rw [h3, Nat.add_div_right _ hc]
    · rw [planAux]
      simp only [if_neg hs, List.length_nil]
      have : L - start = 0 := by omega
      rw [this, Nat.zero_add]
      exact (Nat.div_eq_of_lt (by omega)).symm

theorem planAux_mem (c L : ℕ) (hc : 0 < c) :
    ∀ fuel start pr, pr ∈ planAux c L fuel start →
      pr.1 < pr.2 ∧ pr.2 ≤ L ∧ pr.2 - pr.1 ≤ c := by
  intro fuel
  induction fuel with
  | zero => intro start pr h; simp [planAux] at h
  | succ fuel ih =>
    intro start pr h
    rw [planAux] at h
    by_cases hs : start < L
    · rw [if_pos hs] at h
      rcases List.mem_cons.mp h with h1 | h2
      · subst h1
        dsimp only
        refine ⟨lt_min_iff.mpr ⟨by omega, hs⟩, min_le_right _ _, ?_⟩
        have := min_le_left (start + c) L
        omega
      · exact ih (start + c) pr h2
    · rw [if_neg hs] at h
      simp at h

theorem planAux_slices_join {α : Type} (c : ℕ) (hc : 0 < c) (b : List α) :
    ∀ fuel start, b.length - start ≤ fuel →
      ((planAux c b.length fuel start).map
        (fun pr => (b.drop pr.1).take c)).flatten = b.drop start := by
  intro fuel
  induction fuel with
  | zero =>
    intro start h
    have : b.length ≤ start := by omega
    rw [planAux]
    simp [List.drop_eq_nil_of_le this]
  | succ fuel ih =>
    intro start h
    by_cases hs : start < b.length
    · have hrec : b.length - (start + c) ≤ fuel := by omega
      rw [planAux]
      simp only [if_pos hs, List.map_cons, List.flatten_cons, ih (start + c) hrec]
      have hdd : b.drop (start + c) = (b.drop start).drop c := by
        rw [List.drop_drop]
      rw [hdd, List.take_append_drop]
    · rw [planAux]
      simp only [if_neg hs]
      have : b.length ≤ start := by omega
      simp [List.drop_eq_nil_of_le this]

/-- Concatenating the chunks reconstructs the source exactly. -/
theorem chunksData_join {α : Type} (c : ℕ) (hc : 0 < c) (b : List α) :
    (chunksData c b).flatten = b := by
  have := planAux_slices_join c hc b b.length 0 (by omega)
  simpa [chunksData, chunksPlan] using this

/-! ### List helpers -/

theorem sum_flatten_eq (xss : List (List ℤ)) :
    xss.flatten.sum = (xss.map List.sum).sum := by
  induction xss with
  | nil => simp
  | cons x xs ih => simp [List.sum_append, ih]

theorem qsum_flatten_eq (xss : List (List ℚ)) :
    xss.flatten.sum = (xss.map List.sum).sum := by
  induction xss with
  | nil => simp
  | cons x xs ih => simp [List.sum_append, ih]

theorem length_flatten_eq (xss : List (List ℤ)) :
    xss.flatten.length = (xss.map List.length).sum := by
  induction xss with
  | nil => simp
  | cons x xs ih => simp [ih]

theorem castNatSum (l : List ℕ) : ((l.sum : ℕ) : ℤ) = (l.map (fun n => (n : ℤ))).sum := by
  induction l with
  | nil => simp
  | cons x xs ih => simp [ih]

theorem toFinset_dedup_list (l : List ℤ) : l.dedup.toFinset = l.toFinset := by
  ext a
  simp [List.mem_dedup]

theorem toFinset_flatten_dedup (xss : List (List ℤ)) :
    ((xss.map List.dedup).flatten).toFinset = xss.flatten.toFinset := by
  induction xss with
  | nil => simp
  | cons x xs ih => simp [List.toFinset_append, toFinset_dedup_list, ih]

/-! ### Transform evaluation is a concatenation homomorphism -/

theorem evalT_nil (t : TExpr) : evalT t [] = [] := by
  induction t <;> simp [evalT, *]

theorem evalT_append (t : TExpr) (xs ys : List ℤ) :
    evalT t (xs ++ ys) = evalT t xs ++ evalT t ys := by
  induction t with
  | leaf => rfl
  | emap f t ih => simp [evalT, ih]
  | sel p t ih => simp [evalT, ih]

theorem evalT_flatten (t : TExpr) (xss : List (List ℤ)) :
    evalT t xss.flatten = (xss.map (evalT t)).flatten := by
  induction xss with
  | nil => simp [evalT_nil]
  | cons x xs ih => simp [evalT_append, ih]

theorem sum_flatten_singletons (g : List ℤ → ℤ) (l : List (List ℤ)) :
    ((l.map (fun ch => [g ch])).flatten).sum = (l.map g).sum := by
  induction l with
  | nil => simp
  | cons x xs ih => simp [ih]

theorem sum_map_evalT (t : TExpr) (l : List (List ℤ)) :
    (l.map (fun ch => (evalT t ch).sum)).sum = (evalT t l.flatten).sum := by
  induction l with
  | nil => simp [evalT_nil]
  | cons x xs ih => simp [evalT_append, List.sum_append, ih]

theorem count_map_evalT (t : TExpr) (l : List (List ℤ)) :
    (l.map (fun ch => ((evalT t ch).length : ℤ))).sum
      = ((evalT t l.flatten).length : ℤ) := by
  induction l with
  | nil => simp [evalT_nil]
  | cons x xs ih => simp [evalT_append, List.length_append, Nat.cast_add, ih]

theorem nunique_map_evalT (t : TExpr) (l : List (List ℤ)) :
    ((l.map (fun ch => (evalT t ch).dedup)).flatten).toFinset
      = (evalT t l.flatten).toFinset := by
  induction l with
  | nil => simp [evalT_nil]
  | cons x xs ih => simp [evalT_append, List.toFinset_append, toFinset_dedup_list, ih]

/-! ### Claims -/

/-- C2: for every source length `L ≥ 0` and chunk size `c ≥ 1`, the
partition plan yields exactly `⌈L / c⌉` half-open ranges `[start, stop)`
that are pairwise disjoint, in ascending source order, and whose union
is exactly `[0, L)` (stated as: the concatenation of the planned index
ranges, in plan order, is exactly the list `0, 1, ..., L - 1`); each
partition is nonempty and at most `c` long (so the final one may be
shorter), and `L = 0` yields an empty plan. -/
theorem c2_partition_plan (L c : ℕ) (hc : 0 < c) :
    (chunksPlan L c).length = (L + c - 1) / c ∧
    ((chunksPlan L c).map (fun pr => List.range' pr.1 (pr.2 - pr.1))).flatten
      = List.range L ∧
    (∀ pr ∈ chunksPlan L c, pr.1 < pr.2 ∧ pr.2 ≤ L ∧ pr.2 - pr.1 ≤ c) ∧
    (L = 0 → chunksPlan L c = []) := by
  refine ⟨?_, ?_, ?_, ?_⟩
  · have h := planAux_length c L hc L 0 (by omega)
    simpa [chunksPlan] using h
  · have h := planAux_join c L hc L 0 (by omega)
    rw [chunksPlan, h, List.range_eq_range']
    norm_num
  · intro pr hpr
    exact planAux_mem c L hc L 0 pr hpr
  · intro h
    subst h
    rfl

/-- Witness for C2 at `L = 10`, `c = 3`:
partitions `[0,3), [3,6), [6,9), [9,10)`. -/
theorem c2_witness :
    0 < 3 ∧
    ((chunksPlan 10 3).length = (10 + 3 - 1) / 3 ∧
      ((chunksPlan 10 3).map (fun pr => List.range' pr.1 (pr.2 - pr.1))).flatten
        = List.range 10 ∧
      (∀ pr ∈ chunksPlan 10 3, pr.1 < pr.2 ∧ pr.2 ≤ 10 ∧ pr.2 - pr.1 ≤ 3) ∧
      (10 = 0 → chunksPlan 10 3 = [])) :=
  ⟨by decide, c2_partition_plan 10 3 (by decide)⟩

/-- C1: for every expression that is a map-like transform followed by a
sum, count or distinct-count reduction, the chunked pipeline (split into
chunk-local and aggregate expressions, evaluate the chunk-local
expression on each partition's slice, merge in partition order, evaluate
the aggregate on the merged intermediate) equals direct evaluation over
the whole dataset, and hence any two chunk sizes give identical
results. -/
theorem c1_chunked_equals_direct (r : RKind) (t : TExpr) (xs : List ℤ)
    (c c₁ c₂ : ℕ) (hc : 0 < c) (hc₁ : 0 < c₁) (hc₂ : 0 < c₂) :
    executeChunked r t c xs = evalFull r t xs ∧
    executeChunked r t c₁ xs = executeChunked r t c₂ xs := by
  have key : ∀ d : ℕ, 0 < d → executeChunked r t d xs = evalFull r t xs := by
    intro d hd
    have hjoin : (chunksData d xs).flatten = xs := chunksData_join d hd xs
    cases r with
    | rsum =>
      have hs : splitChunkExpr RKind.rsum t = fun chunk => [(evalT t chunk).sum] := rfl
      simp only [executeChunked, hs, evalFull, splitAggExpr]
      rw [sum_flatten_singletons, sum_map_evalT, hjoin]
    | rcount =>
      have hs : splitChunkExpr RKind.rcount t
          = fun chunk => [((evalT t chunk).length : ℤ)] := rfl
      simp only [executeChunked, hs, evalFull, splitAggExpr]
      rw [sum_flatten_singletons, count_map_evalT, hjoin]
    | rnunique =>
      have hs : splitChunkExpr RKind.rnunique t
          = fun chunk => (evalT t chunk).dedup := rfl
      simp only [executeChunked, hs, evalFull, splitAggExpr]
      rw [nunique_map_evalT, hjoin]
  exact ⟨key c hc, (key c₁ hc₁).trans (key c₂ hc₂).symm⟩

/-- Witness for C1: sum of `[1..10]` with chunk sizes 3 and 7. -/
theorem c1_witness :
    0 < 3 ∧ 0 < 3 ∧ 0 < 7 ∧
    (executeChunked .rsum .leaf 3 [1, 2, 3, 4, 5, 6, 7, 8, 9, 10]
        = evalFull .rsum .leaf [1, 2, 3, 4, 5, 6, 7, 8, 9, 10] ∧
      executeChunked .rsum .leaf 3 [1, 2, 3, 4, 5, 6, 7, 8, 9, 10]
        = executeChunked .rsum .leaf 7 [1, 2, 3, 4, 5, 6, 7, 8, 9, 10]) :=
  ⟨by decide, by decide, by decide,
    c1_chunked_equals_direct .rsum .leaf [1, 2, 3, 4, 5, 6, 7, 8, 9, 10] 3 3 7
      (by decide) (by decide) (by decide)⟩

theorem qsum_map_chunks (f : ℚ → ℚ) (xss : List (List ℚ)) :
    (xss.map (fun ch => (ch.map f).sum)).sum = (xss.flatten.map f).sum := by
  induction xss with
  | nil => simp
  | cons x xs ih => simp [List.sum_append, ih]

/-- The chunked accumulation of `Σx²` in `var` equals the plain sum of
squares over the whole dataset. -/
theorem var_sqsum_chunks (ba : List ℚ) :
    ((chunksData (2 ^ 15) ba).map (fun chunk => (chunk.map (fun x => x * x)).sum)).sum
      = sqSum ba := by
  rw [qsum_map_chunks, chunksData_join (2 ^ 15) (by norm_num) ba, sqSum]

/-- Accumulating `Σx` by per-chunk sums over the fixed-size chunks
equals the plain sum over the whole dataset. -/
theorem var_sum_chunks (ba : List ℚ) :
    ((chunksData (2 ^ 15) ba).map List.sum).sum = ba.sum := by
  rw [← qsum_flatten_eq, chunksData_join (2 ^ 15) (by norm_num) ba]

/-- C3 (amended): for every numeric array of length `n ≥ 1` whose
denominator `n − unbiased_flag` is nonzero (that is, `n ≥ 2` whenever the
unbiased flag is set), the variance computation returns exactly
`(Σx² − (Σx)² / n) / (n − unbiased_flag)`, where both `Σx²` and `Σx` are
accumulated by iterating the dataset once in fixed-size chunks and the
unbiased flag selects division by `n − 1` versus `n`; at `n = 1` with
the unbiased flag set the computation instead silently returns NaN
(numpy-scalar division by the zero denominator), not a formula value. -/
theorem c3_var_formula (unbiased : Bool) (ba : List ℚ)
    (h1 : 1 ≤ ba.length) (h2 : unbiased = true → 2 ≤ ba.length) :
    var_up unbiased ba
      = .ok (.num ((sqSum ba - ba.sum * ba.sum / (ba.length : ℚ))
          / ((ba.length : ℚ) - uflag unbiased))) ∧
    ((chunksData (2 ^ 15) ba).map (fun chunk => (chunk.map (fun x => x * x)).sum)).sum
      = sqSum ba ∧
    ((chunksData (2 ^ 15) ba).map List.sum).sum = ba.sum := by
  refine ⟨?_, var_sqsum_chunks ba, var_sum_chunks ba⟩
  have hn : ((ba.length : ℚ)) ≠ 0 := by
    have h : (0 : ℚ) < (ba.length : ℚ) := by exact_mod_cast h1
    exact ne_of_gt h
  have hd : ((ba.length : ℚ)) - uflag unbiased ≠ 0 := by
    cases unbiased with
    | false =>
      have hu : uflag false = 0 := rfl
      rw [hu, sub_zero]
      exact hn
    | true =>
      have h2q : (2 : ℚ) ≤ (ba.length : ℚ) := by exact_mod_cast h2 rfl
      have hu : uflag true = 1 := rfl
      rw [hu]
      intro heq
      have : ((ba.length : ℚ)) = 1 := by linarith
      linarith
  rw [var_up]
  simp only [var_sqsum_chunks, pyDiv, if_neg hn, npDiv, if_neg hd]

/-- C3 counterexample: on the one-element array `[5]` with the unbiased
flag set, the claim's universally quantified statement (every array of
length `n ≥ 1` returns the closed formula) fails — the numerator is a
numpy scalar, so the division by `n − 1 = 0` silently produces NaN, and
the computation returns that NaN, not a formula value. -/
theorem c3_counterexample :
    var_up true [(5 : ℚ)] = .ok NpVal.nan ∧
    var_up true [(5 : ℚ)]
      ≠ .ok (.num ((sqSum [(5 : ℚ)] - List.sum [(5 : ℚ)] * List.sum [(5 : ℚ)]
            / ((List.length [(5 : ℚ)] : ℕ) : ℚ))
          / (((List.length [(5 : ℚ)] : ℕ) : ℚ) - uflag true))) := by
  have hval : var_up true [(5 : ℚ)] = .ok NpVal.nan := by
    rw [var_up]
    simp only [var_sqsum_chunks]
    norm_num [sqSum, pyDiv, npDiv, uflag]
  refine ⟨hval, ?_⟩
  rw [hval]
  intro h
  exact NpVal.noConfusion (Except.ok.inj h)

/-- Witness for C3 at the spec's scenario `[1..10]`, unbiased:
`var = 55/6 ≈ 9.1666`. -/
theorem c3_witness :
    1 ≤ List.length [(1 : ℚ), 2, 3, 4, 5, 6, 7, 8, 9, 10] ∧
    (true = true → 2 ≤ List.length [(1 : ℚ), 2, 3, 4, 5, 6, 7, 8, 9, 10]) ∧
    (var_up true [(1 : ℚ), 2, 3, 4, 5, 6, 7, 8, 9, 10]
      = .ok (.num ((sqSum [(1 : ℚ), 2, 3, 4, 5, 6, 7, 8, 9, 10]
            - List.sum [(1 : ℚ), 2, 3, 4, 5, 6, 7, 8, 9, 10]
              * List.sum [(1 : ℚ), 2, 3, 4, 5, 6, 7, 8, 9, 10]
              / ((List.length [(1 : ℚ), 2, 3, 4, 5, 6, 7, 8, 9, 10] : ℕ) : ℚ))
          / (((List.length [(1 : ℚ), 2, 3, 4, 5, 6, 7, 8, 9, 10] : ℕ) : ℚ)
            - uflag true))) ∧
      ((chunksData (2 ^ 15) [(1 : ℚ), 2, 3, 4, 5, 6, 7, 8, 9, 10]).map
        (fun chunk => (chunk.map (fun x => x * x)).sum)).sum
        = sqSum [(1 : ℚ), 2, 3, 4, 5, 6, 7, 8, 9, 10] ∧
      ((chunksData (2 ^ 15) [(1 : ℚ), 2, 3, 4, 5, 6, 7, 8, 9, 10]).map List.sum).sum
        = List.sum [(1 : ℚ), 2, 3, 4, 5, 6, 7, 8, 9, 10]) :=
  ⟨by decide, fun _ => by decide,
    c3_var_formula true [(1 : ℚ), 2, 3, 4, 5, 6, 7, 8, 9, 10]
      (by decide) (fun _ => by decide)⟩

/-- C4: the standard deviation is the square root of the variance
computation's result (variance errors propagate unchanged), and a
negative input to the square root is rejected by the consistently applied
policy of surfacing Python's numeric-domain `ValueError` (math domain
error) — a value is produced only for nonnegative inputs, never a silent
NaN. -/
theorem c4_std_policy (unbiased : Bool) (ba : List ℚ) :
    std_up unbiased ba = (var_up unbiased ba).bind mathSqrt ∧
    (∀ x : ℚ, x < 0 → mathSqrt (.num x) = .error .valueError) ∧
    (∀ x : ℚ, 0 ≤ x → mathSqrt (.num x) = .ok (.num (Real.sqrt x))) := by
  refine ⟨?_, ?_, ?_⟩
  · cases h : var_up unbiased ba with
    | error e => simp [std_up, h, Except.bind]
    | ok v => simp [std_up, h, Except.bind]
  · intro x hx
    simp [mathSqrt, hx]
  · intro x hx
    simp [mathSqrt, not_lt.mpr hx]

/-- Witness for C4: `std` of `[1, 2]` (variance `1/4`), the rejection of
the negative input `-1`, and the square root of the nonnegative input
`4`. -/
theorem c4_witness :
    (std_up false [(1 : ℚ), 2] = (var_up false [(1 : ℚ), 2]).bind mathSqrt) ∧
    ((-1 : ℚ) < 0 ∧ mathSqrt (.num (-1)) = .error .valueError) ∧
    ((0 : ℚ) ≤ 4 ∧ mathSqrt (.num 4) = .ok (.num (Real.sqrt 4))) :=
  ⟨(c4_std_policy false [(1 : ℚ), 2]).1,
    ⟨by norm_num, (c4_std_policy false [(1 : ℚ), 2]).2.1 (-1) (by norm_num)⟩,
    ⟨by norm_num, (c4_std_policy false [(1 : ℚ), 2]).2.2 4 (by norm_num)⟩⟩

/-- C9 (amended): over an empty dataset, count and sum return 0, and
variance and standard deviation surface `ZeroDivisionError` (their inner
division divides a genuine Python float — the explicit `float(...)`
cast — by the int 0); mean, however, silently returns NaN (numpy-scalar
division by zero) rather than surfacing a division-by-zero error. -/
theorem c9_empty_dataset (u : Bool) :
    count_up ([] : List ℚ) = 0 ∧
    sum_up [] = 0 ∧
    mean_up [] = NpVal.nan ∧
    var_up u [] = .error .zeroDivisionError ∧
    std_up u [] = .error .zeroDivisionError := by
  have hv : var_up u [] = .error .zeroDivisionError := rfl
  refine ⟨rfl, rfl, by norm_num [mean_up, npDiv], hv, ?_⟩
  simp [std_up, hv]

/-- C9 counterexample: mean over the empty dataset does not surface a
division-by-zero error — `ba.sum()` is a NumPy scalar, so `0 / 0` is
numpy-scalar division, which silently returns NaN, and the handler
returns that NaN as its value. -/
theorem c9_mean_counterexample :
    mean_up ([] : List ℚ) = NpVal.nan := by
  norm_num [mean_up, npDiv]

/-- C10: for every ReLabel or Label expression over a bcolz carray or
ctable, regardless of the data, the computation unconditionally raises
`NotImplementedError`. -/
theorem c10_relabel_not_implemented (e : RelabelOp) (b : BColz) :
    compute_up_relabel e b = .error .notImplementedError := rfl

/-- C5 (code bug at the Reduction decision point): the memory check used
at every decision point is exactly `byte_size < available_memory() / 4`
(first conjunct, in integer form), and the generic handlers do select
in-memory execution when it passes; but the `Reduction` handler
(lines 160-167) computes the in-memory result and then unconditionally
overwrites it with the chunked (`ChunkIndexable`) computation, so at the
failing input `nbytes = 8`, `available_memory() = 100` the check passes
yet the returned execution is chunked, not in-memory. -/
theorem c5_reduction_memory_check_bug :
    (∀ nbytes am : ℕ, fits_in_memory nbytes am = true ↔ 4 * nbytes < am) ∧
    fits_in_memory 8 100 = true ∧
    compute_up_generic (fits_in_memory 8 100) = ExecPath.inMemory ∧
    (compute_up_reduction (fits_in_memory 8 100)).returned = ExecPath.chunkIndexable ∧
    (compute_up_reduction (fits_in_memory 8 100)).returned ≠ ExecPath.inMemory ∧
    (compute_up_reduction (fits_in_memory 8 100)).performed
      = [ExecPath.inMemory, ExecPath.chunkIndexable] := by
  have hiff : ∀ nbytes am : ℕ, fits_in_memory nbytes am = true ↔ 4 * nbytes < am := by
    intro nb am
    rw [fits_in_memory, decide_eq_true_eq,
      lt_div_iff₀ (by norm_num : (0 : ℚ) < 4), mul_comm]
    constructor
    · intro h
      exact_mod_cast h
    · intro h
      exact_mod_cast h
  have h8 : fits_in_memory 8 100 = true := (hiff 8 100).mpr (by norm_num)
  refine ⟨hiff, h8, ?_, rfl, ?_, ?_⟩
  · rw [h8]
    rfl
  · intro hcon
    exact ExecPath.noConfusion hcon
  · rw [h8]
    rfl

/-- C6: a Head expression whose whole root-to-leaf path consists of cheap
node kinds (head, elementwise map, selection, distinct, leaf symbol) is
evaluated directly by the generic evaluator over the iterator-bound leaf,
with no chunk splitting; otherwise the fast path signals
`MDNotImplementedError`, the unsupported-operation marker distinct from
the runtime failure `NotImplementedError`.  The cheap kinds are exactly
those of the `Cheap` tuple; reductions are not cheap. -/
theorem c6_head_fast_path (n : ℕ) (e : CExpr) (xs : List ℤ) :
    ((pathNodes (CExpr.chead n e)).all isCheapC = true →
      compute_down_head n e xs = evalC (CExpr.chead n e) xs) ∧
    ((pathNodes (CExpr.chead n e)).all isCheapC = false →
      compute_down_head n e xs = .error .mdNotImplementedError) ∧
    isCheapC .csymbol = true ∧
    (∀ m c, isCheapC (.chead m c) = true) ∧
    (∀ f c, isCheapC (.cmap f c) = true) ∧
    (∀ p c, isCheapC (.cselection p c) = true) ∧
    (∀ c, isCheapC (.cdistinct c) = true) ∧
    (∀ r c, isCheapC (.creduce r c) = false) ∧
    PyErr.mdNotImplementedError ≠ PyErr.notImplementedError := by
  refine ⟨?_, ?_, rfl, fun _ _ => rfl, fun _ _ => rfl, fun _ _ => rfl,
    fun _ => rfl, fun _ _ => rfl, by decide⟩
  · intro h
    simp [compute_down_head, h]
  · intro h
    simp [compute_down_head, h]

/-- Witness for C6: an all-cheap path (head of distinct of the leaf) is
computed directly; a path through a reduction signals
`MDNotImplementedError`. -/
theorem c6_witness :
    ((pathNodes (CExpr.chead 2 (CExpr.cdistinct CExpr.csymbol))).all isCheapC = true ∧
      compute_down_head 2 (CExpr.cdistinct CExpr.csymbol) [3, 1, 3]
        = evalC (CExpr.chead 2 (CExpr.cdistinct CExpr.csymbol)) [3, 1, 3]) ∧
    ((pathNodes (CExpr.chead 2 (CExpr.creduce RKind.rsum CExpr.csymbol))).all
        isCheapC = false ∧
      compute_down_head 2 (CExpr.creduce RKind.rsum CExpr.csymbol) [3, 1, 3]
        = .error .mdNotImplementedError) :=
  ⟨⟨rfl, (c6_head_fast_path 2 (CExpr.cdistinct CExpr.csymbol) [3, 1, 3]).1 rfl⟩,
    ⟨rfl, (c6_head_fast_path 2 (CExpr.creduce RKind.rsum CExpr.csymbol) [3, 1, 3]).2.1 rfl⟩⟩

theorem mapExcept_getNdarray (xss : List (List ℚ)) :
    mapExcept getNdarray (xss.map PValue.ndarray) = .ok xss := by
  induction xss with
  | nil => rfl
  | cons x xs ih => simp [mapExcept, getNdarray, ih]

theorem mapExcept_getDframe (rss : List (List (List ℚ))) :
    mapExcept getDframe (rss.map PValue.dframe) = .ok rss := by
  induction rss with
  | nil => rfl
  | cons x xs ih => simp [mapExcept, getDframe, ih]

theorem mapExcept_toIter_pylist (xss : List (List ℚ)) :
    mapExcept toIter (xss.map PValue.pylist) = .ok xss := by
  induction xss with
  | nil => rfl
  | cons x xs ih => simp [mapExcept, toIter, ih]

/-- C7 (amended): merging dispatches on the shape of the first chunk
result (arrays concatenate, tables concatenate rows, sequences flatten in
order), and merging a single-element list returns that element's value
unchanged with no extra wrapping; merging an empty partition set,
however, raises `IndexError` from `parts[0]` instead of yielding an
empty value. -/
theorem c7_merge_spec :
    (∀ p : PValue, merge [p] = .ok p) ∧
    (∀ xss : List (List ℚ), xss ≠ [] →
      merge (xss.map PValue.ndarray) = .ok (.ndarray xss.flatten)) ∧
    (∀ rss : List (List (List ℚ)), rss ≠ [] →
      merge (rss.map PValue.dframe) = .ok (.dframe rss.flatten)) ∧
    (∀ xss : List (List ℚ), xss ≠ [] →
      merge (xss.map PValue.pylist) = .ok (.pylist xss.flatten)) ∧
    merge [] = .error .indexError := by
  refine ⟨?_, ?_, ?_, ?_, rfl⟩
  · intro p
    cases p with
    | ndarray xs => simp [merge, mapExcept, getNdarray]
    | dframe rows => simp [merge, mapExcept, getDframe]
    | pylist xs => simp [merge, mapExcept, toIter]
  · intro xss hne
    cases xss with
    | nil => exact absurd rfl hne
    | cons x rest =>
      have h := mapExcept_getNdarray (x :: rest)
      simp only [List.map_cons] at h
      simp [merge, h]
  · intro rss hne
    cases rss with
    | nil => exact absurd rfl hne
    | cons x rest =>
      have h := mapExcept_getDframe (x :: rest)
      simp only [List.map_cons] at h
      simp [merge, h]
  · intro xss hne
    cases xss with
    | nil => exact absurd rfl hne
    | cons x rest =>
      have h := mapExcept_toIter_pylist (x :: rest)
      simp only [List.map_cons] at h
      simp [merge, h]

/-- C7 counterexample: merging an empty partition set does not yield an
empty value of any shape — it raises `IndexError` (from `parts[0]`), so
the merge produces no value at all. -/
theorem c7_empty_counterexample :
    merge ([] : List PValue) = .error .indexError ∧
    (merge ([] : List PValue)).toOption = none :=
  ⟨rfl, rfl⟩

/-- Witness for C7: a singleton merge is the identity, and a two-array
merge concatenates in order. -/
theorem c7_witness :
    merge [PValue.pylist [5]] = .ok (PValue.pylist [5]) ∧
    (([[(1 : ℚ)], [2, 3]] : List (List ℚ)) ≠ [] ∧
      merge (([[(1 : ℚ)], [2, 3]] : List (List ℚ)).map PValue.ndarray)
        = .ok (.ndarray ([[(1 : ℚ)], [2, 3]] : List (List ℚ)).flatten)) :=
  ⟨c7_merge_spec.1 (PValue.pylist [5]),
    ⟨by simp, c7_merge_spec.2.1 [[(1 : ℚ)], [2, 3]] (by simp)⟩⟩

/-- C8: for a selection whose predicate numexpr cannot compile, execution
returns the element-by-element streaming evaluation (a plain filter by
the predicate) and no compilation failure reaches the caller: the
first-registered handler catches the failure from `data.where` and falls
back to the streaming result, and the effective handler (the second,
shadowing registration — multipledispatch keeps the last function
registered per signature) streams directly without attempting
compilation, so both produce the same functionally equivalent value. -/
theorem c8_selection_fallback (p : PredC) (rows : List ℚ)
    (hp : p.numexprSupported = false) :
    effectiveSelection p rows false = .ok (rows.filter p.fn) ∧
    selection_v1 p rows false = .ok (rows.filter p.fn) ∧
    (∀ fits, effectiveSelection p rows fits = selection_v2 p rows fits) := by
  have heff : effectiveSelection = selection_v2 := rfl
  refine ⟨?_, ?_, fun fits => by rw [heff]⟩
  · rw [heff]
    simp [selection_v2, iterFilter]
  · simp [selection_v1, eval_where, hp, iterFilter]

/-- Witness for C8: a non-compilable positivity predicate over
`[-1, 2]`; both the effective handler and the shadowed catching handler
return the streamed filter result. -/
theorem c8_witness :
    (PredC.mk (fun x => decide (0 < x)) false).numexprSupported = false ∧
    effectiveSelection (PredC.mk (fun x => decide (0 < x)) false) [(-1 : ℚ), 2] false
      = .ok ([(-1 : ℚ), 2].filter (PredC.mk (fun x => decide (0 < x)) false).fn) ∧
    selection_v1 (PredC.mk (fun x => decide (0 < x)) false) [(-1 : ℚ), 2] false
      = .ok ([(-1 : ℚ), 2].filter (PredC.mk (fun x => decide (0 < x)) false).fn) :=
  ⟨rfl,
    (c8_selection_fallback (PredC.mk (fun x => decide (0 < x)) false) [(-1 : ℚ), 2] rfl).1,
    (c8_selection_fallback (PredC.mk (fun x => decide (0 < x)) false) [(-1 : ℚ), 2] rfl).2.1⟩
